import Mathlib

/-!
# Verification of the chessbot position-analysis caching and validation pipeline

A shallow embedding of the core subsystem of the `chessbot` backend:

* `AnalysisCacheService` — the TTL- and depth-aware engine-evaluation cache
  (`backend/app/services/cache_service.py`);
* `PositionAnalysisCache` — the LRU strategic-analysis cache with pending
  markers (`backend/app/services/analysis_cache.py`);
* the move-quality classifier, centipawn-loss and accuracy computations
  (`backend/app/services/game_analyzer.py`);
* the response-validation decision policy, severity classifier, correction
  application and fallback generation
  (`backend/app/services/response_validator.py`,
  `backend/app/models/validation.py`).

Python dictionaries are embedded as association lists (`List (String × β)`);
the wall clock (`time.time()`) is passed explicitly as a rational-valued
`now` argument; `asyncio.Event` objects are embedded as numeric identifiers
allocated from a counter, with a `woken` list recording which events have
been signalled.  Text is embedded as `List Char`; Python's truthiness of
strings (empty string is falsy) is modelled explicitly.
-/

set_option autoImplicit false

namespace Chessbot

/-! ## Association-list primitives (embedding of Python `dict`) -/

variable {β : Type}

/-- Lookup of the first binding for a key, like `dict.get`. -/
def kvLookup (k : String) : List (String × β) → Option β
  | [] => none
  | (k', v) :: rest => if k' = k then some v else kvLookup k rest

/-- `d[k] = v`: replace the first binding in place, or append a new one. -/
def kvInsert (k : String) (v : β) : List (String × β) → List (String × β)
  | [] => [(k, v)]
  | (k', v') :: rest =>
    if k' = k then (k, v) :: rest else (k', v') :: kvInsert k v rest

/-- `del d[k]`: a Python dict holds at most one binding per key, so deletion
removes every binding for the key. -/
def kvEraseAll (k : String) : List (String × β) → List (String × β)
  | [] => []
  | (k', v) :: rest =>
    if k' = k then kvEraseAll k rest else (k', v) :: kvEraseAll k rest

/-- Remove the first binding for a key (used for `OrderedDict.move_to_end`). -/
def kvEraseFirst (k : String) : List (String × β) → List (String × β)
  | [] => []
  | (k', v) :: rest => if k' = k then rest else (k', v) :: kvEraseFirst k rest

/-! ## Python string splitting (`str.split()` with no arguments) -/

/-- The whitespace characters recognised by Python's `str.split()` /
`str.strip()` / `\s`. -/
def pyIsSpace (c : Char) : Bool :=
  c = ' ' || c = '\t' || c = '\n' || c = '\x0d' || c = '\x0b' || c = '\x0c'

/-- Split a character list on runs of whitespace, dropping empty tokens,
exactly like Python's `str.split()` with no separator. -/
def pySplitTokens (l : List Char) : List (List Char) :=
  (l.foldr
    (fun c acc =>
      if pyIsSpace c then [] :: acc
      else
        match acc with
        | [] => [[c]]
        | t :: ts => (c :: t) :: ts)
    []).filter (fun t => !t.isEmpty)

/-- `fen.split()` as a list of strings. -/
def pySplit (s : String) : List String :=
  (pySplitTokens s.toList).map (fun l => String.mk l)

/-! ## Evaluation Cache (`cache_service.py`, `AnalysisCacheService`)

The cached `AnalyzeResponse` payload is never inspected by the cache, so it
is a type parameter `α`.  `time.time()` is passed explicitly as `now`. -/

/-- Default TTL of the evaluation cache (`DEFAULT_TTL_SECONDS = 300`). -/
def DEFAULT_TTL_SECONDS : ℚ := 300

/-- `CacheEntry` from `cache_service.py`: a cached analysis with metadata. -/
structure CacheEntry (α : Type) where
  response : α
  timestamp : ℚ
  depth : Nat
  deriving DecidableEq

/-- `AnalysisCacheService` state: the FEN-keyed dict, the TTL, and the
hit/miss counters. -/
structure AnalysisCacheService (α : Type) where
  cache : List (String × CacheEntry α)
  ttl : ℚ
  hits : Nat
  misses : Nat
  deriving DecidableEq

/-- `_normalize_fen`: keep the first four whitespace-separated FEN fields
(pieces, turn, castling, en passant), dropping the move clocks; a FEN with
fewer than four fields is returned unchanged. -/
def normalize_fen (fen : String) : String :=
  let parts := pySplit fen
  if parts.length ≥ 4 then String.intercalate " " (parts.take 4) else fen

/-- `AnalysisCacheService.get`: returns the cached response, or `none` when
the key is absent, the entry has expired (in which case the entry is deleted),
or the cached depth is below `min_depth`.  Returns the updated state. -/
def AnalysisCacheService.get {α : Type} (s : AnalysisCacheService α)
    (fen : String) (min_depth : Nat) (now : ℚ) :
    Option α × AnalysisCacheService α :=
  let key := normalize_fen fen
  match kvLookup key s.cache with
  | none => (none, { s with misses := s.misses + 1 })
  | some entry =>
    if now - entry.timestamp > s.ttl then
      (none, { s with misses := s.misses + 1, cache := kvEraseAll key s.cache })
    else if entry.depth < min_depth then
      (none, { s with misses := s.misses + 1 })
    else
      (some entry.response, { s with hits := s.hits + 1 })

/-- `AnalysisCacheService.set`: store the result, unless an existing entry
for the same normalized key has strictly greater depth. -/
def AnalysisCacheService.set {α : Type} (s : AnalysisCacheService α)
    (fen : String) (response : α) (depth : Nat) (now : ℚ) :
    AnalysisCacheService α :=
  let key := normalize_fen fen
  match kvLookup key s.cache with
  | some existing =>
    if existing.depth > depth then s
    else { s with cache := kvInsert key ⟨response, now, depth⟩ s.cache }
  | none => { s with cache := kvInsert key ⟨response, now, depth⟩ s.cache }

/-! ## Strategic Analysis Cache (`analysis_cache.py`, `PositionAnalysisCache`)

The cache never inspects the stored `CachedAnalysis` payload, so it is a
type parameter `α`.  The backing `OrderedDict` is an association list whose
head is the least-recently-used binding.  Each `asyncio.Event` is embedded
as an identifier drawn from `nextEventId`; calling `event.set()` (waking all
waiters of that event) is recorded by prepending the identifier to `woken`. -/

/-- `CachedAnalysis` from `analysis_cache.py`; the engine evaluation and
position features are opaque payloads. -/
structure CachedAnalysis (ε φ : Type) where
  fen : String
  opus_analysis : String
  stockfish_eval : ε
  position_features : φ
  timestamp : ℚ

/-- `PositionAnalysisCache` state: the LRU-ordered cache, the pending
markers (key ↦ event id), the capacity, the event-id allocator, and the
set of already-signalled events. -/
structure PositionAnalysisCache (α : Type) where
  cache : List (String × α)
  pending : List (String × Nat)
  max_size : Nat
  nextEventId : Nat
  woken : List Nat

/-- `OrderedDict.move_to_end` + assignment: the key is (re)bound at the
most-recently-used end.  When the key is absent this is a plain append. -/
def insertMRU {α : Type} (k : String) (a : α) (l : List (String × α)) :
    List (String × α) :=
  kvEraseFirst k l ++ [(k, a)]

/-- `while len(cache) > max_size: popitem(last=False)` — drop bindings from
the least-recently-used end until the size bound holds. -/
def evictLRU {α : Type} (l : List (String × α)) (max_size : Nat) :
    List (String × α) :=
  l.drop (l.length - max_size)

/-- `PositionAnalysisCache.get`: on a hit the binding moves to the
most-recently-used end and the analysis is returned. -/
def PositionAnalysisCache.get {α : Type} (s : PositionAnalysisCache α)
    (fen : String) : Option α × PositionAnalysisCache α :=
  match kvLookup fen s.cache with
  | some v => (some v, { s with cache := kvEraseFirst fen s.cache ++ [(fen, v)] })
  | none => (none, s)

/-- `PositionAnalysisCache.set`: bind at the MRU end, evict LRU bindings
while over capacity, then signal and remove any pending marker for the key. -/
def PositionAnalysisCache.set {α : Type} (s : PositionAnalysisCache α)
    (fen : String) (analysis : α) : PositionAnalysisCache α :=
  let c := evictLRU (insertMRU fen analysis s.cache) s.max_size
  match kvLookup fen s.pending with
  | some eid =>
    { s with cache := c, woken := eid :: s.woken,
             pending := kvEraseAll fen s.pending }
  | none => { s with cache := c }

/-- `is_analyzing`: whether a pending marker exists for the position. -/
def PositionAnalysisCache.is_analyzing {α : Type}
    (s : PositionAnalysisCache α) (fen : String) : Bool :=
  (kvLookup fen s.pending).isSome

/-- `mark_analyzing`: create a fresh event for the key unless one is already
pending (idempotent). -/
def PositionAnalysisCache.mark_analyzing {α : Type}
    (s : PositionAnalysisCache α) (fen : String) : PositionAnalysisCache α :=
  if (kvLookup fen s.pending).isSome then s
  else
    { s with pending := s.pending ++ [(fen, s.nextEventId)],
             nextEventId := s.nextEventId + 1 }

/-- `cancel_pending`: signal the pending event (waking all its waiters) and
remove the marker; a no-op when no marker exists. -/
def PositionAnalysisCache.cancel_pending {α : Type}
    (s : PositionAnalysisCache α) (fen : String) : PositionAnalysisCache α :=
  match kvLookup fen s.pending with
  | some eid =>
    { s with woken := eid :: s.woken, pending := kvEraseAll fen s.pending }
  | none => s

/-! ## Move Quality Classifier and accuracy (`game_analyzer.py`)

Python ints are embedded as `Int` (centipawns) and `Nat` (plies); the float
arithmetic of `calculate_accuracy` is embedded over `ℚ` (all the quantities
involved — integer sums, halving, one-decimal rounding — are exact), with
Python's `round(x, 1)` embedded as round-half-to-even on rationals. -/

/-- `MoveClassification` from `models/chess.py`. -/
inductive MoveClassification
  | BRILLIANT
  | GREAT
  | BEST
  | EXCELLENT
  | GOOD
  | INACCURACY
  | MISTAKE
  | BLUNDER
  deriving DecidableEq

/-- `Evaluation` from `models/chess.py`: a Stockfish score, `type` is
`"cp"` or `"mate"`; the optional win/draw/loss payload is irrelevant to the
classifier and omitted. -/
structure Evaluation where
  type : String
  value : Int
  deriving DecidableEq

/-- The `THRESHOLDS` dict of `game_analyzer.py`. -/
def THRESHOLDS (k : String) : Int :=
  if k = "inaccuracy" then 25
  else if k = "mistake" then 50
  else if k = "blunder" then 100
  else 0

/-- `classify_move` from `game_analyzer.py`. -/
def classify_move (cp_loss : Option Int) (is_best : Bool) : MoveClassification :=
  if is_best then MoveClassification.BEST
  else
    match cp_loss with
    | none => MoveClassification.BLUNDER
    | some loss =>
      if loss ≥ THRESHOLDS "blunder" then MoveClassification.BLUNDER
      else if loss ≥ THRESHOLDS "mistake" then MoveClassification.MISTAKE
      else if loss ≥ THRESHOLDS "inaccuracy" then MoveClassification.INACCURACY
      else if loss ≤ 10 then MoveClassification.EXCELLENT
      else if loss ≤ 25 then MoveClassification.GOOD
      else MoveClassification.GOOD

/-- `calculate_cp_loss` from `game_analyzer.py`. -/
def calculate_cp_loss (eval_before eval_after : Evaluation)
    (white_to_move : Bool) : Option Int :=
  if eval_before.type = "mate" ∨ eval_after.type = "mate" then none
  else
    let before_cp := eval_before.value
    let after_cp := eval_after.value
    let cp_loss := if white_to_move then before_cp - after_cp
                   else after_cp - before_cp
    some (max 0 cp_loss)

/-- `AnalyzedMove` from `models/chess.py`. -/
structure AnalyzedMove where
  ply : Nat
  san : String
  uci : String
  classification : MoveClassification
  eval_before : Evaluation
  eval_after : Evaluation
  best_move : String
  best_move_san : String
  centipawn_loss : Option Int
  is_best : Bool
  deriving DecidableEq

/-- Python's `round` to an integer: round half to even. -/
def round_half_even (x : ℚ) : ℤ :=
  if x - ⌊x⌋ < 1 / 2 then ⌊x⌋
  else if x - ⌊x⌋ > 1 / 2 then ⌊x⌋ + 1
  else if ⌊x⌋ % 2 = 0 then ⌊x⌋ else ⌊x⌋ + 1

/-- Python's `round(x, 1)`: round to one decimal place. -/
def round1 (x : ℚ) : ℚ :=
  (round_half_even (10 * x) : ℚ) / 10

/-- `calculate_accuracy` from `game_analyzer.py`: filter the given side's
moves with a known centipawn loss (odd ply = White), average the losses,
convert to an accuracy percentage, and round to one decimal. -/
def calculate_accuracy (analyzed_moves : List AnalyzedMove)
    (is_white : Bool) : Option ℚ :=
  let side_moves := analyzed_moves.filter
    (fun m => ((m.ply % 2 == 1) == is_white) && m.centipawn_loss.isSome)
  if side_moves.isEmpty then none
  else
    let total_loss : ℤ := (side_moves.map
      (fun m => m.centipawn_loss.getD 0)).sum
    let avg_loss : ℚ := (total_loss : ℚ) / (side_moves.length : ℚ)
    some (round1 (max 0 (100 - avg_loss * (1 / 2))))

/-- The accuracy aggregation exactly as worded by the specification: take
the side's moves (odd ply = White), exclude moves with null loss, average
the remaining centipawn losses, apply `max(0, 100 − avgLoss × 0.5)`, round
to one decimal, and return absent when the side has zero scorable moves.
Stated from the spec's words, to be compared with `calculate_accuracy`. -/
def spec_accuracy (moves : List AnalyzedMove) (is_white : Bool) : Option ℚ :=
  let losses := moves.filterMap
    (fun m => if (if is_white then m.ply % 2 = 1 else m.ply % 2 ≠ 1)
              then m.centipawn_loss else none)
  if losses = [] then none
  else
    let avgLoss : ℚ := ((losses.sum : ℤ) : ℚ) / (losses.length : ℚ)
    some (round1 (max 0 (100 - avgLoss * (1 / 2))))

/-! ## Response Validator (`response_validator.py`, `models/validation.py`)

The regex entity extraction and the python-chess board checks produce a list
of `ValidatedEntity` records; `validate_and_correct` is embedded over that
list (its decision policy, correction application, whitespace cleanup and
fallback generation are embedded in full).  Response text is `List Char` so
that Python's index-based slicing is exact. -/

/-- `ValidationResult` from `models/validation.py`.  `MALFORMED` embeds the
result for malformed move text (the source calls it INVALID_SYNTAX). -/
inductive ValidationResult
  | VALID
  | INVALID_MOVE
  | MALFORMED
  | AMBIGUOUS
  | WRONG_PIECE
  | SQUARE_EMPTY
  | EVALUATION_MISMATCH
  deriving DecidableEq

/-- `ErrorSeverity` from `models/validation.py`. -/
inductive ErrorSeverity
  | LOW
  | MEDIUM
  | HIGH
  | CRITICAL
  deriving DecidableEq

/-- `ValidatedEntity` from `models/validation.py`. -/
structure ValidatedEntity where
  original : String
  entity_type : String
  is_valid : Bool
  result : ValidationResult
  corrected : Option String
  confidence : ℚ
  position_in_text : Nat × Nat
  deriving DecidableEq

/-- `classify_error_severity` from `models/validation.py`. -/
def classify_error_severity (v : ValidatedEntity) : ErrorSeverity :=
  if v.is_valid then ErrorSeverity.LOW
  else if v.entity_type = "san_move" ∨ v.entity_type = "uci_move" then
    if v.result = ValidationResult.AMBIGUOUS then ErrorSeverity.LOW
    else if v.result = ValidationResult.INVALID_MOVE then ErrorSeverity.HIGH
    else ErrorSeverity.CRITICAL
  else if v.entity_type = "piece_location" then
    if v.result = ValidationResult.SQUARE_EMPTY then ErrorSeverity.HIGH
    else if v.result = ValidationResult.WRONG_PIECE then ErrorSeverity.MEDIUM
    else ErrorSeverity.LOW
  else if v.entity_type = "evaluation" then ErrorSeverity.MEDIUM
  else ErrorSeverity.MEDIUM

/-- The punctuation class `[.,;:!?]` of `_apply_corrections`. -/
def pyPunct (c : Char) : Bool :=
  c = '.' || c = ',' || c = ';' || c = ':' || c = '!' || c = '?'

/-- Embedding of `re.sub(r"\s+", " ", ·)`: every maximal whitespace run
becomes one space. -/
def collapseWs : List Char → List Char
  | [] => []
  | [c] => if pyIsSpace c then [' '] else [c]
  | c :: d :: rest =>
    if pyIsSpace c then
      if pyIsSpace d then collapseWs (d :: rest)
      else ' ' :: collapseWs (d :: rest)
    else c :: collapseWs (d :: rest)

/-- Whether the next non-whitespace character is `[.,;:!?]` punctuation. -/
def followedByPunct : List Char → Bool
  | [] => false
  | c :: rest => if pyIsSpace c then followedByPunct rest else pyPunct c

/-- Embedding of `re.sub(r"\s+([.,;:!?])", r"\1", ·)`: whitespace runs that
immediately precede punctuation are removed. -/
def subWsPunct : List Char → List Char
  | [] => []
  | c :: rest =>
    if pyIsSpace c && followedByPunct rest then subWsPunct rest
    else c :: subWsPunct rest

/-- Python's `str.strip()`. -/
def pyStrip (l : List Char) : List Char :=
  ((l.dropWhile pyIsSpace).reverse.dropWhile pyIsSpace).reverse

/-- The whitespace cleanup at the end of `_apply_corrections`: collapse
whitespace runs, drop whitespace before punctuation, strip the ends. -/
def normWs (l : List Char) : List Char :=
  pyStrip (subWsPunct (collapseWs l))

/-- Python truthiness of an optional string: `None` and `""` are falsy. -/
def pyTruthy (s : Option String) : Bool :=
  match s with
  | some t => if t = "" then false else true
  | none => false

/-- One insertion step of a stable sort by start offset, descending —
the behaviour of `sorted(validations, key=start, reverse=True)`. -/
def insertDesc (v : ValidatedEntity) :
    List ValidatedEntity → List ValidatedEntity
  | [] => [v]
  | w :: rest =>
    if v.position_in_text.1 ≤ w.position_in_text.1 then w :: insertDesc v rest
    else v :: w :: rest

/-- `sorted(validations, key=lambda v: v.position_in_text[0], reverse=True)`
as a stable insertion sort. -/
def sortByStartDesc (l : List ValidatedEntity) : List ValidatedEntity :=
  l.foldl (fun acc v => insertDesc v acc) []

/-- One step of the correction loop of `_apply_corrections`: an invalid
entity's span is replaced by its correction when one is present and
non-empty (Python truthiness of `v.corrected`), otherwise stripped. -/
def spliceCorrection (res : List Char) (v : ValidatedEntity) : List Char :=
  if v.is_valid then res
  else
    match v.corrected with
    | some c =>
      if c = "" then
        res.take v.position_in_text.1 ++ res.drop v.position_in_text.2
      else
        res.take v.position_in_text.1 ++ c.toList ++ res.drop v.position_in_text.2
    | none => res.take v.position_in_text.1 ++ res.drop v.position_in_text.2

/-- `_apply_corrections`: apply corrections from the end of the text
backwards (so earlier offsets stay valid), then clean up whitespace. -/
def apply_corrections (response : List Char)
    (validations : List ValidatedEntity) : List Char :=
  normWs ((sortByStartDesc validations).foldl spliceCorrection response)

/-- `_format_eval_natural`: describe a `{'type','value'}` engine score in
natural language.  Thresholds 0.2/0.75/1.5 pawns become 20/75/150
centipawns over the integer score. -/
def format_eval_natural (e : Evaluation) : String :=
  if e.type = "mate" then
    let side := if e.value > 0 then "White" else "Black"
    "winning for " ++ side ++ " with mate in " ++ toString e.value.natAbs
  else
    if e.value.natAbs < 20 then "roughly equal"
    else if e.value.natAbs ≤ 75 then
      let side := if e.value > 0 then "White" else "Black"
      "slightly better for " ++ side
    else if e.value.natAbs < 150 then
      let side := if e.value > 0 then "White" else "Black"
      "clearly better for " ++ side
    else
      let side := if e.value > 0 then "White" else "Black"
      "winning for " ++ side

/-- `_generate_fallback`: a safe response built only from the authoritative
engine evaluation and best move — the LLM text is not an input. -/
def generate_fallback (stockfish_eval : Evaluation)
    (best_move_san : Option String) : String :=
  let eval_text := format_eval_natural stockfish_eval
  if pyTruthy best_move_san then
    "The position is " ++ eval_text ++ ". The engine suggests " ++
      best_move_san.getD "" ++
      " as the best continuation. Would you like me to explain why?"
  else
    "The position is " ++ eval_text ++
      ". Let me know what specific aspect you\x27d like to explore."

/-- One iteration of the severity-counting loop of `validate_and_correct`:
an invalid entity bumps the High counter (first component) or the Critical
counter (second component) according to its severity. -/
def severity_step (hc : Nat × Nat) (v : ValidatedEntity) : Nat × Nat :=
  if !v.is_valid then
    if classify_error_severity v = ErrorSeverity.HIGH then (hc.1 + 1, hc.2)
    else if classify_error_severity v = ErrorSeverity.CRITICAL then
      (hc.1, hc.2 + 1)
    else hc
  else hc

/-- `validate_and_correct` over the extracted-and-validated entities: count
High and Critical severity errors; fall back when any Critical error exists
or more than two High errors exist; otherwise apply corrections. -/
def validate_and_correct (response : List Char)
    (validations : List ValidatedEntity) (stockfish_eval : Evaluation)
    (best_move_san : Option String) : List Char :=
  if response = [] then response
  else
    let counts := validations.foldl severity_step (0, 0)
    if counts.2 > 0 ∨ counts.1 > 2 then
      (generate_fallback stockfish_eval best_move_san).toList
    else
      apply_corrections response validations

/-! ## Lemmas about the dict primitives -/

@[simp] theorem kvLookup_nil (k : String) : kvLookup (β := β) k [] = none := rfl

theorem kvLookup_kvInsert_self (k : String) (v : β) (l : List (String × β)) :
    kvLookup k (kvInsert k v l) = some v := by
  induction l with
  | nil => simp [kvLookup, kvInsert]
  | cons p rest ih =>
    obtain ⟨k', v'⟩ := p
    by_cases h : k' = k
    · simp [kvLookup, kvInsert, h]
    · simp [kvLookup, kvInsert, h, ih]

theorem kvLookup_kvInsert_ne (k k' : String) (v : β) (l : List (String × β))
    (h : k' ≠ k) : kvLookup k' (kvInsert k v l) = kvLookup k' l := by
  induction l with
  | nil => simp [kvLookup, kvInsert, Ne.symm h]
  | cons p rest ih =>
    obtain ⟨k₀, v₀⟩ := p
    by_cases h₀ : k₀ = k
    · subst h₀
      simp [kvLookup, kvInsert, Ne.symm h]
    · by_cases h₁ : k₀ = k'
      · simp [kvLookup, kvInsert, h₀, h₁, h]
      · simp [kvLookup, kvInsert, h₀, h₁, ih]

theorem kvLookup_kvEraseAll_self (k : String) (l : List (String × β)) :
    kvLookup k (kvEraseAll k l) = none := by
  induction l with
  | nil => rfl
  | cons p rest ih =>
    obtain ⟨k', v'⟩ := p
    by_cases h : k' = k
    · simpa [kvEraseAll, h] using ih
    · simpa [kvEraseAll, kvLookup, h] using ih

theorem kvLookup_kvEraseAll_ne (k k' : String) (l : List (String × β))
    (h : k' ≠ k) : kvLookup k' (kvEraseAll k l) = kvLookup k' l := by
  induction l with
  | nil => rfl
  | cons p rest ih =>
    obtain ⟨k₀, v₀⟩ := p
    by_cases h₀ : k₀ = k
    · subst h₀
      simp [kvEraseAll, kvLookup, Ne.symm h, ih]
    · by_cases h₁ : k₀ = k'
      · simp [kvEraseAll, kvLookup, h₀, h₁, h]
      · simp [kvEraseAll, kvLookup, h₀, h₁, ih]

theorem kvLookup_eq_none_of_not_mem_keys (k : String) (l : List (String × β))
    (h : k ∉ l.map Prod.fst) : kvLookup k l = none := by
  induction l with
  | nil => rfl
  | cons p rest ih =>
    obtain ⟨k', v'⟩ := p
    simp only [List.map_cons, List.mem_cons] at h
    push_neg at h
    simp [kvLookup, Ne.symm h.1, ih h.2]

theorem kvEraseAll_of_lookup_none (k : String) (l : List (String × β))
    (h : kvLookup k l = none) : kvEraseAll k l = l := by
  induction l with
  | nil => rfl
  | cons p rest ih =>
    obtain ⟨k', v'⟩ := p
    by_cases h₀ : k' = k
    · simp [kvLookup, h₀] at h
    · simp only [kvLookup, if_neg h₀] at h
      simp [kvEraseAll, h₀, ih h]

theorem length_kvEraseAll_of_nodup (k : String) (l : List (String × β)) (v : β)
    (hnd : (l.map Prod.fst).Nodup) (hmem : kvLookup k l = some v) :
    (kvEraseAll k l).length + 1 = l.length := by
  induction l with
  | nil => simp [kvLookup] at hmem
  | cons p rest ih =>
    obtain ⟨k', v'⟩ := p
    simp only [List.map_cons, List.nodup_cons] at hnd
    by_cases h : k' = k
    · subst h
      have hnone : kvLookup k' rest = none :=
        kvLookup_eq_none_of_not_mem_keys _ _ hnd.1
      simp [kvEraseAll, kvEraseAll_of_lookup_none _ _ hnone]
    · simp only [kvLookup, if_neg h] at hmem
      simp [kvEraseAll, h, ih hnd.2 hmem]

theorem kvEraseFirst_of_lookup_none (k : String) (l : List (String × β))
    (h : kvLookup k l = none) : kvEraseFirst k l = l := by
  induction l with
  | nil => rfl
  | cons p rest ih =>
    obtain ⟨k', v'⟩ := p
    by_cases h₀ : k' = k
    · simp [kvLookup, h₀] at h
    · simp only [kvLookup, if_neg h₀] at h
      simp [kvEraseFirst, h₀, ih h]

theorem length_kvEraseFirst_of_lookup_some (k : String) (l : List (String × β))
    (v : β) (h : kvLookup k l = some v) :
    (kvEraseFirst k l).length + 1 = l.length := by
  induction l with
  | nil => simp [kvLookup] at h
  | cons p rest ih =>
    obtain ⟨k', v'⟩ := p
    by_cases h₀ : k' = k
    · simp [kvEraseFirst, h₀]
    · simp only [kvLookup, if_neg h₀] at h
      simp [kvEraseFirst, h₀, ih h]

theorem kvLookup_append (k : String) (l₁ l₂ : List (String × β)) :
    kvLookup k (l₁ ++ l₂) = (kvLookup k l₁).orElse (fun _ => kvLookup k l₂) := by
  induction l₁ with
  | nil => simp [kvLookup]
  | cons p rest ih =>
    obtain ⟨k', v'⟩ := p
    by_cases h : k' = k
    · simp [kvLookup, h]
    · simp [kvLookup, h, ih]

theorem kvLookup_kvEraseFirst_ne (k k' : String) (l : List (String × β))
    (h : k' ≠ k) : kvLookup k' (kvEraseFirst k l) = kvLookup k' l := by
  induction l with
  | nil => rfl
  | cons p rest ih =>
    obtain ⟨k₀, v₀⟩ := p
    by_cases h₀ : k₀ = k
    · subst h₀
      simp [kvEraseFirst, kvLookup, Ne.symm h]
    · by_cases h₁ : k₀ = k'
      · simp [kvEraseFirst, kvLookup, h₀, h₁, h]
      · simp [kvEraseFirst, kvLookup, h₀, h₁, ih]

theorem kvLookup_kvEraseFirst_self_of_nodup (k : String) (l : List (String × β))
    (hnd : (l.map Prod.fst).Nodup) : kvLookup k (kvEraseFirst k l) = none := by
  induction l with
  | nil => rfl
  | cons p rest ih =>
    obtain ⟨k', v'⟩ := p
    simp only [List.map_cons, List.nodup_cons] at hnd
    by_cases h : k' = k
    · subst h
      simpa [kvEraseFirst] using kvLookup_eq_none_of_not_mem_keys _ _ hnd.1
    · simp [kvEraseFirst, kvLookup, h, ih hnd.2]

/-! ## Evaluation Cache: unfolding lemmas and claim theorems -/

theorem AnalysisCacheService.get_of_lookup_none {α : Type}
    (s : AnalysisCacheService α) (fen : String) (min_depth : Nat) (now : ℚ)
    (hmem : kvLookup (normalize_fen fen) s.cache = none) :
    s.get fen min_depth now = (none, { s with misses := s.misses + 1 }) := by
  simp [AnalysisCacheService.get, hmem]

theorem AnalysisCacheService.get_of_lookup_some {α : Type}
    (s : AnalysisCacheService α) (fen : String) (min_depth : Nat) (now : ℚ)
    (e : CacheEntry α) (hmem : kvLookup (normalize_fen fen) s.cache = some e) :
    s.get fen min_depth now =
      if now - e.timestamp > s.ttl then
        (none, { s with misses := s.misses + 1,
                        cache := kvEraseAll (normalize_fen fen) s.cache })
      else if e.depth < min_depth then
        (none, { s with misses := s.misses + 1 })
      else
        (some e.response, { s with hits := s.hits + 1 }) := by
  simp [AnalysisCacheService.get, hmem]

theorem AnalysisCacheService.set_of_lookup_none {α : Type}
    (s : AnalysisCacheService α) (fen : String) (r : α) (depth : Nat) (now : ℚ)
    (hmem : kvLookup (normalize_fen fen) s.cache = none) :
    s.set fen r depth now =
      { s with cache := kvInsert (normalize_fen fen) ⟨r, now, depth⟩ s.cache } := by
  simp [AnalysisCacheService.set, hmem]

theorem AnalysisCacheService.set_of_lookup_some {α : Type}
    (s : AnalysisCacheService α) (fen : String) (r : α) (depth : Nat) (now : ℚ)
    (e : CacheEntry α) (hmem : kvLookup (normalize_fen fen) s.cache = some e) :
    s.set fen r depth now =
      if e.depth > depth then s
      else { s with cache := kvInsert (normalize_fen fen) ⟨r, now, depth⟩ s.cache } := by
  simp [AnalysisCacheService.set, hmem]

/-- C7: `get` on the evaluation cache returns absent (`none`) exactly when no
entry exists for the normalized key, or the entry's age exceeds the TTL, or
the entry's depth is below `min_depth`; in all other cases it returns the
stored result.  A miss is an ordinary return value: `get` is a total function
into `Option`, so a miss can never be raised as an exception. -/
theorem evaluation_cache_get_absent_iff {α : Type} (s : AnalysisCacheService α)
    (fen : String) (min_depth : Nat) (now : ℚ) :
    ((s.get fen min_depth now).1 = none ↔
      kvLookup (normalize_fen fen) s.cache = none ∨
        ∃ e, kvLookup (normalize_fen fen) s.cache = some e ∧
          (now - e.timestamp > s.ttl ∨ e.depth < min_depth))
    ∧ ∀ e, kvLookup (normalize_fen fen) s.cache = some e →
        now - e.timestamp ≤ s.ttl → min_depth ≤ e.depth →
        (s.get fen min_depth now).1 = some e.response := by
  constructor
  · cases hmem : kvLookup (normalize_fen fen) s.cache with
    | none =>
      rw [AnalysisCacheService.get_of_lookup_none s fen min_depth now hmem]
      simp
    | some e =>
      rw [AnalysisCacheService.get_of_lookup_some s fen min_depth now e hmem]
      by_cases h1 : now - e.timestamp > s.ttl
      · rw [if_pos h1]
        constructor
        · intro _
          exact Or.inr ⟨e, rfl, Or.inl h1⟩
        · intro _
          rfl
      · by_cases h2 : e.depth < min_depth
        · rw [if_neg h1, if_pos h2]
          constructor
          · intro _
            exact Or.inr ⟨e, rfl, Or.inr h2⟩
          · intro _
            rfl
        · rw [if_neg h1, if_neg h2]
          constructor
          · intro hc
            simp at hc
          · rintro (hc | ⟨e', he', hcond⟩)
            · simp at hc
            · injection he' with he'
              subst he'
              rcases hcond with hc | hc
              · exact absurd hc h1
              · exact absurd hc h2
  · intro e hmem h1 h2
    rw [AnalysisCacheService.get_of_lookup_some s fen min_depth now e hmem]
    rw [if_neg (not_lt.mpr h1), if_neg (not_lt.mpr h2)]

/-- C7 witness: on a concrete one-entry cache, a fresh, deep-enough entry is
returned by `get`. -/
theorem evaluation_cache_get_absent_iff_witness :
    (AnalysisCacheService.get
      (⟨[("k", ⟨7, 0, 12⟩)], 300, 0, 0⟩ : AnalysisCacheService Nat)
      "k" 10 250).1 = some 7 :=
  (evaluation_cache_get_absent_iff
    (⟨[("k", ⟨7, 0, 12⟩)], 300, 0, 0⟩ : AnalysisCacheService Nat)
    "k" 10 250).2 ⟨7, 0, 12⟩ rfl (by norm_num) (by decide)

/-- C10 (implicit frame effect): when `get` finds an entry whose age exceeds
the TTL, it deletes that entry as a side effect — the lookup misses, the
cache shrinks by exactly one entry, every other key is untouched, and a
subsequent `get` of the same key misses with no entry present. -/
theorem evaluation_cache_expired_get_deletes {α : Type}
    (s : AnalysisCacheService α) (fen : String) (min_depth : Nat) (now : ℚ)
    (e : CacheEntry α)
    (hnd : (s.cache.map Prod.fst).Nodup)
    (hmem : kvLookup (normalize_fen fen) s.cache = some e)
    (hexp : now - e.timestamp > s.ttl) :
    (s.get fen min_depth now).1 = none ∧
    kvLookup (normalize_fen fen) ((s.get fen min_depth now).2).cache = none ∧
    ((s.get fen min_depth now).2).cache.length + 1 = s.cache.length ∧
    (∀ k, k ≠ normalize_fen fen →
      kvLookup k ((s.get fen min_depth now).2).cache = kvLookup k s.cache) ∧
    (((s.get fen min_depth now).2).get fen min_depth now).1 = none := by
  rw [AnalysisCacheService.get_of_lookup_some s fen min_depth now e hmem]
  rw [if_pos hexp]
  refine ⟨rfl, kvLookup_kvEraseAll_self _ _, ?_, ?_, ?_⟩
  · exact length_kvEraseAll_of_nodup _ _ _ hnd hmem
  · intro k hk
    exact kvLookup_kvEraseAll_ne _ _ _ hk
  · rw [AnalysisCacheService.get_of_lookup_none _ fen min_depth now
      (kvLookup_kvEraseAll_self _ _)]

/-- C10 witness: after an expired `get`, a second `get` of the same key
misses with no entry present. -/
theorem evaluation_cache_expired_get_deletes_witness :
    (AnalysisCacheService.get
      ((AnalysisCacheService.get
        (⟨[("k", ⟨7, 0, 12⟩), ("m", ⟨8, 400, 12⟩)], 300, 0, 0⟩ :
          AnalysisCacheService Nat) "k" 0 500).2) "k" 0 500).1 = none :=
  (evaluation_cache_expired_get_deletes
    (⟨[("k", ⟨7, 0, 12⟩), ("m", ⟨8, 400, 12⟩)], 300, 0, 0⟩ :
      AnalysisCacheService Nat) "k" 0 500 ⟨7, 0, 12⟩
    (by decide) rfl (by norm_num)).2.2.2.2

/-- C1 counterexample: `set` is NOT a no-op at equal depth.  Starting from an
empty cache, `set("k", r1=1, depth=5)` followed by `set("k", r2=2, depth=5)`
(so `d2 ≤ d1`) leaves `r2`, not `r1`: the claim that `get` afterwards still
returns `r1` is false. -/
theorem evaluation_cache_equal_depth_overwrite_cex :
    (((AnalysisCacheService.set
        (⟨[], 300, 0, 0⟩ : AnalysisCacheService Nat) "k" 1 5 0).set
        "k" 2 5 0).get "k" 0 0).1 ≠ some 1 := by
  have hs1 : AnalysisCacheService.set
      (⟨[], 300, 0, 0⟩ : AnalysisCacheService Nat) "k" 1 5 0 =
      ⟨[(normalize_fen "k", ⟨1, 0, 5⟩)], 300, 0, 0⟩ := by
    rw [AnalysisCacheService.set_of_lookup_none
      (⟨[], 300, 0, 0⟩ : AnalysisCacheService Nat) "k" 1 5 0 rfl]
    rfl
  have hs2 : AnalysisCacheService.set
      (⟨[(normalize_fen "k", ⟨1, 0, 5⟩)], 300, 0, 0⟩ :
        AnalysisCacheService Nat) "k" 2 5 0 =
      ⟨[(normalize_fen "k", ⟨2, 0, 5⟩)], 300, 0, 0⟩ := by
    rw [AnalysisCacheService.set_of_lookup_some
      (⟨[(normalize_fen "k", ⟨1, 0, 5⟩)], 300, 0, 0⟩ :
        AnalysisCacheService Nat) "k" 2 5 0 ⟨1, 0, 5⟩ (by simp [kvLookup])]
    rw [if_neg (by decide)]
    simp [kvInsert]
  rw [hs1, hs2]
  rw [AnalysisCacheService.get_of_lookup_some
    (⟨[(normalize_fen "k", ⟨2, 0, 5⟩)], 300, 0, 0⟩ :
      AnalysisCacheService Nat) "k" 0 0 ⟨2, 0, 5⟩ (by simp [kvLookup])]
  rw [if_neg (by norm_num), if_neg (by decide)]
  simp

/-- C1 (amended): `set` is a no-op only when the existing entry's depth is
STRICTLY greater than the incoming depth.  After `set(key, r1, d1)` then
`set(key, r2, d2)` with `d2 < d1` (from any state whose entry for the key,
if present, has depth at most `d1`), the entry still holds `r1` with its
original timestamp and depth, and a fresh `get` with `min_depth = 0` returns
`r1`.  At `d2 = d1` the entry is instead replaced by `r2`. -/
theorem evaluation_cache_no_downgrade {α : Type} (s : AnalysisCacheService α)
    (fen : String) (r1 r2 : α) (d1 d2 : Nat) (t1 t2 now : ℚ)
    (hprior : ∀ e, kvLookup (normalize_fen fen) s.cache = some e → e.depth ≤ d1)
    (hlt : d2 < d1)
    (hfresh : now - t1 ≤ s.ttl) :
    kvLookup (normalize_fen fen)
        (((s.set fen r1 d1 t1).set fen r2 d2 t2).cache) = some ⟨r1, t1, d1⟩ ∧
    ((((s.set fen r1 d1 t1).set fen r2 d2 t2)).get fen 0 now).1 = some r1 := by
  have hstep1 : (s.set fen r1 d1 t1).cache =
      kvInsert (normalize_fen fen) ⟨r1, t1, d1⟩ s.cache := by
    cases hmem : kvLookup (normalize_fen fen) s.cache with
    | none =>
      rw [AnalysisCacheService.set_of_lookup_none s fen r1 d1 t1 hmem]
    | some e =>
      rw [AnalysisCacheService.set_of_lookup_some s fen r1 d1 t1 e hmem]
      rw [if_neg (not_lt.mpr (hprior e hmem))]
  have hlook1 : kvLookup (normalize_fen fen) (s.set fen r1 d1 t1).cache =
      some ⟨r1, t1, d1⟩ := by
    rw [hstep1]
    exact kvLookup_kvInsert_self _ _ _
  have hstep2 : (s.set fen r1 d1 t1).set fen r2 d2 t2 = s.set fen r1 d1 t1 := by
    rw [AnalysisCacheService.set_of_lookup_some _ fen r2 d2 t2 _ hlook1]
    rw [if_pos hlt]
  refine ⟨by rw [hstep2, hlook1], ?_⟩
  rw [hstep2]
  have httl : (s.set fen r1 d1 t1).ttl = s.ttl := by
    cases hmem : kvLookup (normalize_fen fen) s.cache with
    | none => rw [AnalysisCacheService.set_of_lookup_none s fen r1 d1 t1 hmem]
    | some e =>
      rw [AnalysisCacheService.set_of_lookup_some s fen r1 d1 t1 e hmem]
      split <;> rfl
  rw [AnalysisCacheService.get_of_lookup_some _ fen 0 now _ hlook1]
  rw [httl, if_neg (not_lt.mpr hfresh), if_neg (by simp)]

/-- C1 amended-claim witness at concrete depths 5 then 3. -/
theorem evaluation_cache_no_downgrade_witness :
    kvLookup (normalize_fen "k")
        ((((⟨[], 300, 0, 0⟩ : AnalysisCacheService Nat).set "k" 1 5 0).set
          "k" 2 3 0).cache) = some ⟨1, 0, 5⟩ ∧
    (((((⟨[], 300, 0, 0⟩ : AnalysisCacheService Nat).set "k" 1 5 0).set
        "k" 2 3 0)).get "k" 0 0).1 = some 1 :=
  evaluation_cache_no_downgrade (⟨[], 300, 0, 0⟩ : AnalysisCacheService Nat)
    "k" 1 2 5 3 0 0 0
    (fun e he => by simp at he) (by decide) (by norm_num)

/-! ## Strategic Cache: unfolding lemmas and claim theorems -/

theorem PositionAnalysisCache.set_cache {α : Type} (s : PositionAnalysisCache α)
    (k : String) (a : α) :
    (s.set k a).cache = evictLRU (insertMRU k a s.cache) s.max_size := by
  cases hp : kvLookup k s.pending with
  | some eid => simp [PositionAnalysisCache.set, hp]
  | none => simp [PositionAnalysisCache.set, hp]

/-- C5: the Strategic Cache keeps at most one pending marker per key:
`mark_analyzing` is idempotent (a second call for the same key leaves the
state — in particular the allocated wait event — unchanged), and both
`set` and `cancel_pending` signal the key's pending event (waking all its
waiters) and remove the marker, so afterwards `is_analyzing` is `false`. -/
theorem strategic_cache_pending_ops {α : Type} (s : PositionAnalysisCache α)
    (fen : String) (a : α) :
    ((s.mark_analyzing fen).mark_analyzing fen = s.mark_analyzing fen)
    ∧ (∀ eid, kvLookup fen s.pending = some eid →
        eid ∈ (s.set fen a).woken ∧ eid ∈ (s.cancel_pending fen).woken)
    ∧ (s.set fen a).is_analyzing fen = false
    ∧ (s.cancel_pending fen).is_analyzing fen = false := by
  refine ⟨?_, ?_, ?_, ?_⟩
  · cases hp : kvLookup fen s.pending with
    | some eid => simp [PositionAnalysisCache.mark_analyzing, hp]
    | none =>
      have h1 : s.mark_analyzing fen =
          { s with pending := s.pending ++ [(fen, s.nextEventId)],
                   nextEventId := s.nextEventId + 1 } := by
        simp [PositionAnalysisCache.mark_analyzing, hp]
      rw [h1]
      have h2 : kvLookup fen (s.pending ++ [(fen, s.nextEventId)]) =
          some s.nextEventId := by
        rw [kvLookup_append, hp]
        simp [kvLookup]
      simp [PositionAnalysisCache.mark_analyzing, h2]
  · intro eid hp
    constructor
    · simp [PositionAnalysisCache.set, hp]
    · simp [PositionAnalysisCache.cancel_pending, hp]
  · cases hp : kvLookup fen s.pending with
    | some eid =>
      simp [PositionAnalysisCache.set, hp, PositionAnalysisCache.is_analyzing,
        kvLookup_kvEraseAll_self]
    | none =>
      simp [PositionAnalysisCache.set, hp, PositionAnalysisCache.is_analyzing]
  · cases hp : kvLookup fen s.pending with
    | some eid =>
      simp [PositionAnalysisCache.cancel_pending, hp,
        PositionAnalysisCache.is_analyzing, kvLookup_kvEraseAll_self]
    | none =>
      simp [PositionAnalysisCache.cancel_pending, hp,
        PositionAnalysisCache.is_analyzing]

/-- C5 witness: on a concrete pending marker, `set` and `cancel_pending`
both signal event 7. -/
theorem strategic_cache_pending_ops_witness :
    7 ∈ ((⟨[], [("k", 7)], 50, 8, []⟩ :
        PositionAnalysisCache Nat).set "k" 3).woken ∧
    7 ∈ ((⟨[], [("k", 7)], 50, 8, []⟩ :
        PositionAnalysisCache Nat).cancel_pending "k").woken :=
  (strategic_cache_pending_ops
    (⟨[], [("k", 7)], 50, 8, []⟩ : PositionAnalysisCache Nat) "k" 3).2.1 7 rfl

/-- C6: LRU discipline of the Strategic Cache.  (1) After every `set` the
number of cached entries is at most the capacity.  (2) At capacity, a `set`
of a fresh key evicts exactly the least-recently-used entry (the head of the
LRU order) and keeps everything else, appending the new key at the MRU end.
(3) A `get` of a cached key marks it most-recently-used, so it survives the
eviction caused by the next `set` of a fresh key. -/
theorem strategic_cache_lru {α : Type} :
    (∀ (s : PositionAnalysisCache α) (k : String) (a : α),
      (s.set k a).cache.length ≤ s.max_size)
    ∧ (∀ (s : PositionAnalysisCache α) (k : String) (a : α)
        (p : String × α) (rest : List (String × α)),
        s.cache = p :: rest → s.cache.length = s.max_size →
        kvLookup k s.cache = none →
        (s.set k a).cache = rest ++ [(k, a)])
    ∧ (∀ (s : PositionAnalysisCache α) (k₀ : String) (v₀ : α)
        (k : String) (a : α),
        (s.cache.map Prod.fst).Nodup → s.cache.length = s.max_size →
        2 ≤ s.max_size → kvLookup k₀ s.cache = some v₀ →
        kvLookup k s.cache = none →
        kvLookup k₀ ((s.get k₀).2.set k a).cache = some v₀) := by
  refine ⟨?_, ?_, ?_⟩
  · intro s k a
    rw [PositionAnalysisCache.set_cache]
    simp only [evictLRU, List.length_drop]
    omega
  · intro s k a p rest hshape hlen hfree
    rw [PositionAnalysisCache.set_cache]
    rw [insertMRU, kvEraseFirst_of_lookup_none k s.cache hfree, hshape]
    have hlen' : rest.length + 1 = s.max_size := by
      rw [← hlen, hshape]
      simp
    simp only [evictLRU, List.cons_append, List.length_cons,
      List.length_append, List.length_singleton, List.length_nil,
      Nat.zero_add]
    have hdrop : rest.length + 1 + 1 - s.max_size = 1 := by omega
    rw [hdrop]
    simp
  · intro s k₀ v₀ k a hnd hlen hmax hlook hfree
    have hget : (s.get k₀).2 =
        { s with cache := kvEraseFirst k₀ s.cache ++ [(k₀, v₀)] } := by
      simp [PositionAnalysisCache.get, hlook]
    have hkne : k ≠ k₀ := by
      intro h
      rw [h, hlook] at hfree
      exact Option.noConfusion hfree
    have hfree' : kvLookup k (kvEraseFirst k₀ s.cache ++ [(k₀, v₀)]) = none := by
      rw [kvLookup_append, kvLookup_kvEraseFirst_ne k₀ k s.cache hkne, hfree]
      simp [kvLookup, Ne.symm hkne]
    have herase0 : kvLookup k₀ (kvEraseFirst k₀ s.cache) = none :=
      kvLookup_kvEraseFirst_self_of_nodup k₀ s.cache hnd
    have herlen : (kvEraseFirst k₀ s.cache).length + 1 = s.cache.length :=
      length_kvEraseFirst_of_lookup_some k₀ s.cache v₀ hlook
    rw [hget, PositionAnalysisCache.set_cache]
    simp only [insertMRU, kvEraseFirst_of_lookup_none k _ hfree']
    cases hE : kvEraseFirst k₀ s.cache with
    | nil =>
      rw [hE] at herlen
      simp at herlen
      omega
    | cons q qrest =>
      rw [hE] at herlen herase0
      have hqlen : qrest.length + 2 = s.max_size := by
        simp only [List.length_cons] at herlen
        omega
      simp only [evictLRU, List.cons_append, List.length_cons,
        List.length_append, List.length_singleton, List.length_nil,
        Nat.zero_add]
      have hdrop : qrest.length + 1 + 1 + 1 - s.max_size = 1 := by omega
      rw [hdrop]
      have hq : kvLookup k₀ qrest = none := by
        by_cases hq1 : q.1 = k₀
        · rw [show q = (q.1, q.2) from rfl, hq1] at herase0
          simp [kvLookup] at herase0
        · rw [show q = (q.1, q.2) from rfl] at herase0
          simpa [kvLookup, hq1] using herase0
      simp only [List.drop_one, List.tail_cons]
      rw [kvLookup_append, kvLookup_append, hq]
      simp [kvLookup]

/-- C6 witness: at capacity 2, setting a third key evicts the LRU key `"a"`
and keeps `"b"`, and a prior `get "a"` protects `"a"` from that eviction. -/
theorem strategic_cache_lru_witness :
    ((⟨[("a", 10), ("b", 20)], [], 2, 0, []⟩ :
        PositionAnalysisCache Nat).set "c" 30).cache.length ≤ 2 ∧
    ((⟨[("a", 10), ("b", 20)], [], 2, 0, []⟩ :
        PositionAnalysisCache Nat).set "c" 30).cache = [("b", 20), ("c", 30)] ∧
    kvLookup "a"
      (((⟨[("a", 10), ("b", 20)], [], 2, 0, []⟩ :
        PositionAnalysisCache Nat).get "a").2.set "c" 30).cache = some 10 :=
  ⟨strategic_cache_lru.1 _ "c" 30,
   strategic_cache_lru.2.1 _ "c" 30 ("a", 10) [("b", 20)] rfl rfl rfl,
   strategic_cache_lru.2.2 _ "a" 10 "c" 30 (by decide) rfl (by decide) rfl rfl⟩

/-! ## Move Quality Classifier: claim theorems -/

/-- C3: `classify_move` realises exactly the specified rule table: the
engine's top choice is `BEST` regardless of loss; a null loss (non-best) is
`BLUNDER`; loss ≥ 100 is `BLUNDER`; 50–99 `MISTAKE`; 25–49 `INACCURACY`;
loss ≤ 10 `EXCELLENT`; 11–24 `GOOD`; including the boundary values named by
the claim. -/
theorem classify_move_rule_table :
    (∀ cp_loss : Option Int, classify_move cp_loss true = MoveClassification.BEST)
    ∧ classify_move none false = MoveClassification.BLUNDER
    ∧ (∀ l : Int, 100 ≤ l →
        classify_move (some l) false = MoveClassification.BLUNDER)
    ∧ (∀ l : Int, 50 ≤ l → l < 100 →
        classify_move (some l) false = MoveClassification.MISTAKE)
    ∧ (∀ l : Int, 25 ≤ l → l < 50 →
        classify_move (some l) false = MoveClassification.INACCURACY)
    ∧ (∀ l : Int, l ≤ 10 →
        classify_move (some l) false = MoveClassification.EXCELLENT)
    ∧ (∀ l : Int, 11 ≤ l → l ≤ 24 →
        classify_move (some l) false = MoveClassification.GOOD)
    ∧ classify_move (some 10) false = MoveClassification.EXCELLENT
    ∧ classify_move (some 11) false = MoveClassification.GOOD
    ∧ classify_move (some 24) false = MoveClassification.GOOD
    ∧ classify_move (some 25) false = MoveClassification.INACCURACY
    ∧ classify_move (some 100) false = MoveClassification.BLUNDER := by
  have hb : THRESHOLDS "blunder" = 100 := rfl
  have hm : THRESHOLDS "mistake" = 50 := rfl
  have hi : THRESHOLDS "inaccuracy" = 25 := rfl
  refine ⟨fun cp_loss => rfl, rfl, ?_, ?_, ?_, ?_, ?_, by decide, by decide,
    by decide, by decide, by decide⟩
  · intro l hl
    simp only [classify_move, hb, if_neg (Bool.false_ne_true)]
    rw [if_pos (by omega)]
  · intro l h1 h2
    simp only [classify_move, hb, hm, if_neg (Bool.false_ne_true)]
    rw [if_neg (by omega), if_pos (by omega)]
  · intro l h1 h2
    simp only [classify_move, hb, hm, hi, if_neg (Bool.false_ne_true)]
    rw [if_neg (by omega), if_neg (by omega), if_pos (by omega)]
  · intro l hl
    simp only [classify_move, hb, hm, hi, if_neg (Bool.false_ne_true)]
    rw [if_neg (by omega), if_neg (by omega), if_neg (by omega),
      if_pos (by omega)]
  · intro l h1 h2
    simp only [classify_move, hb, hm, hi, if_neg (Bool.false_ne_true)]
    rw [if_neg (by omega), if_neg (by omega), if_neg (by omega),
      if_neg (by omega), if_pos (by omega)]

/-- C3 witness: the general range rules applied at concrete losses. -/
theorem classify_move_rule_table_witness :
    classify_move (some 150) false = MoveClassification.BLUNDER ∧
    classify_move (some 73) false = MoveClassification.MISTAKE ∧
    classify_move (some 30) false = MoveClassification.INACCURACY ∧
    classify_move (some 0) false = MoveClassification.EXCELLENT ∧
    classify_move (some 17) false = MoveClassification.GOOD :=
  ⟨classify_move_rule_table.2.2.1 150 (by decide),
   classify_move_rule_table.2.2.2.1 73 (by decide) (by decide),
   classify_move_rule_table.2.2.2.2.1 30 (by decide) (by decide),
   classify_move_rule_table.2.2.2.2.2.1 0 (by decide),
   classify_move_rule_table.2.2.2.2.2.2.1 17 (by decide) (by decide)⟩

/-- C4: `calculate_cp_loss` returns `max(0, before − after)` for a White
move and `max(0, after − before)` for a Black move (never negative), and
returns null without doing arithmetic whenever either evaluation is a mate
score. -/
theorem calculate_cp_loss_spec (b a : Evaluation) (w : Bool) :
    (b.type = "mate" ∨ a.type = "mate" → calculate_cp_loss b a w = none)
    ∧ (b.type ≠ "mate" → a.type ≠ "mate" →
        calculate_cp_loss b a w =
          some (max 0 (if w then b.value - a.value else a.value - b.value)))
    ∧ (∀ l : Int, calculate_cp_loss b a w = some l → 0 ≤ l) := by
  refine ⟨?_, ?_, ?_⟩
  · intro h
    simp [calculate_cp_loss, h]
  · intro h1 h2
    simp [calculate_cp_loss, h1, h2]
  · intro l hl
    by_cases h : b.type = "mate" ∨ a.type = "mate"
    · simp [calculate_cp_loss, h] at hl
    · simp [calculate_cp_loss, h] at hl
      omega

/-- C4 witness: the spec's four sign-correctness examples (White 100→50 is
a 50 loss, White 50→100 is 0, Black −100→−50 is 50, Black −100→−150 is 0)
and a mate-involved transition yields null. -/
theorem calculate_cp_loss_spec_witness :
    calculate_cp_loss ⟨"cp", 100⟩ ⟨"cp", 50⟩ true = some 50 ∧
    calculate_cp_loss ⟨"cp", 50⟩ ⟨"cp", 100⟩ true = some 0 ∧
    calculate_cp_loss ⟨"cp", -100⟩ ⟨"cp", -50⟩ false = some 50 ∧
    calculate_cp_loss ⟨"cp", -100⟩ ⟨"cp", -150⟩ false = some 0 ∧
    calculate_cp_loss ⟨"mate", 3⟩ ⟨"cp", 0⟩ true = none := by
  refine ⟨?_, ?_, ?_, ?_,
    (calculate_cp_loss_spec ⟨"mate", 3⟩ ⟨"cp", 0⟩ true).1 (Or.inl rfl)⟩
  · rw [(calculate_cp_loss_spec ⟨"cp", 100⟩ ⟨"cp", 50⟩ true).2.1
      (by decide) (by decide)]
    decide
  · rw [(calculate_cp_loss_spec ⟨"cp", 50⟩ ⟨"cp", 100⟩ true).2.1
      (by decide) (by decide)]
    decide
  · rw [(calculate_cp_loss_spec ⟨"cp", -100⟩ ⟨"cp", -50⟩ false).2.1
      (by decide) (by decide)]
    decide
  · rw [(calculate_cp_loss_spec ⟨"cp", -100⟩ ⟨"cp", -150⟩ false).2.1
      (by decide) (by decide)]
    decide

/-- The filtered-and-projected loss list of `calculate_accuracy` coincides
with the spec's filterMap of per-side non-null losses. -/
theorem accuracy_losses_eq (moves : List AnalyzedMove) (w : Bool) :
    (moves.filter
      (fun m => ((m.ply % 2 == 1) == w) && m.centipawn_loss.isSome)).map
        (fun m => m.centipawn_loss.getD 0)
    = moves.filterMap
        (fun m => if (if w then m.ply % 2 = 1 else m.ply % 2 ≠ 1)
                  then m.centipawn_loss else none) := by
  induction moves with
  | nil => rfl
  | cons m rest ih =>
    by_cases hside : m.ply % 2 = 1
    · cases w
      · cases hl : m.centipawn_loss <;>
          simp_all [List.filter_cons, List.filterMap_cons]
      · cases hl : m.centipawn_loss <;>
          simp_all [List.filter_cons, List.filterMap_cons]
    · cases w
      · cases hl : m.centipawn_loss <;>
          simp_all [List.filter_cons, List.filterMap_cons]
      · cases hl : m.centipawn_loss <;>
          simp_all [List.filter_cons, List.filterMap_cons]

/-- C9: `calculate_accuracy` equals the specification formula: the per-side
accuracy is `max(0, 100 − avgLoss × 0.5)` rounded to one decimal, where
`avgLoss` averages the centipawn losses of that side's moves excluding null
losses, and the result is absent exactly when the side has no scorable
moves. -/
theorem calculate_accuracy_eq_spec (moves : List AnalyzedMove) (w : Bool) :
    calculate_accuracy moves w = spec_accuracy moves w := by
  simp only [calculate_accuracy, spec_accuracy]
  rw [← accuracy_losses_eq moves w]
  cases hcase : moves.filter
      (fun m => ((m.ply % 2 == 1) == w) && m.centipawn_loss.isSome) with
  | nil => simp
  | cons m rest => simp

/-! ## Response Validator: lemmas and claim theorems -/

theorem classify_error_severity_of_valid (v : ValidatedEntity)
    (hv : v.is_valid = true) :
    classify_error_severity v = ErrorSeverity.LOW := by
  simp [classify_error_severity, hv]

theorem severity_counts (l : List ValidatedEntity) (h c : Nat) :
    l.foldl severity_step (h, c)
    = (h + l.countP (fun v => classify_error_severity v == ErrorSeverity.HIGH),
       c + l.countP
        (fun v => classify_error_severity v == ErrorSeverity.CRITICAL)) := by
  induction l generalizing h c with
  | nil => simp
  | cons v rest ih =>
    simp only [List.foldl_cons]
    by_cases hv : v.is_valid
    · have hlow := classify_error_severity_of_valid v hv
      rw [show severity_step (h, c) v = (h, c) by simp [severity_step, hv]]
      rw [ih]
      simp [List.countP_cons, hlow]
    · by_cases hh : classify_error_severity v = ErrorSeverity.HIGH
      · rw [show severity_step (h, c) v = (h + 1, c) by
          simp [severity_step, hv, hh]]
        rw [ih]
        simp only [List.countP_cons, hh, Prod.mk.injEq]
        constructor
        · simp
          omega
        · simp

      · by_cases hc2 : classify_error_severity v = ErrorSeverity.CRITICAL
        · rw [show severity_step (h, c) v = (h, c + 1) by
            simp [severity_step, hv, hh, hc2]]
          rw [ih]
          simp only [List.countP_cons, hh, hc2, Prod.mk.injEq]
          constructor
          · simp [hh]
          · simp [hc2]
            omega
        · rw [show severity_step (h, c) v = (h, c) by
            simp [severity_step, hv, hh, hc2]]
          rw [ih]
          simp [List.countP_cons, hh, hc2]

theorem mem_insertDesc (v x : ValidatedEntity) (l : List ValidatedEntity) :
    x ∈ insertDesc v l → x = v ∨ x ∈ l := by
  induction l with
  | nil => simp [insertDesc]
  | cons w rest ih =>
    simp only [insertDesc]
    split
    · intro hx
      rcases List.mem_cons.mp hx with h | h
      · exact Or.inr (List.mem_cons.mpr (Or.inl h))
      · rcases ih h with h' | h'
        · exact Or.inl h'
        · exact Or.inr (List.mem_cons.mpr (Or.inr h'))
    · intro hx
      rcases List.mem_cons.mp hx with h | h
      · exact Or.inl h
      · exact Or.inr h

theorem mem_sortByStartDesc (x : ValidatedEntity) (l : List ValidatedEntity) :
    x ∈ sortByStartDesc l → x ∈ l := by
  have key : ∀ (l : List ValidatedEntity) (acc : List ValidatedEntity),
      x ∈ l.foldl (fun acc v => insertDesc v acc) acc → x ∈ acc ∨ x ∈ l := by
    intro l
    induction l with
    | nil => intro acc h; exact Or.inl h
    | cons v rest ih =>
      intro acc h
      rcases ih (insertDesc v acc) h with h' | h'
      · rcases mem_insertDesc v x acc h' with h'' | h''
        · exact Or.inr (List.mem_cons.mpr (Or.inl h''))
        · exact Or.inl h''
      · exact Or.inr (List.mem_cons.mpr (Or.inr h'))
  intro h
  rcases key l [] h with h' | h'
  · simp at h'
  · exact h'

theorem foldl_spliceCorrection_of_all_valid (l : List ValidatedEntity)
    (r : List Char) (hvalid : ∀ v ∈ l, v.is_valid = true) :
    l.foldl spliceCorrection r = r := by
  induction l generalizing r with
  | nil => rfl
  | cons v rest ih =>
    have hv : v.is_valid = true := hvalid v (List.mem_cons_self v rest)
    simp only [List.foldl_cons, spliceCorrection, hv, if_true]
    exact ih r (fun w hw => hvalid w (List.mem_cons.mpr (Or.inr hw)))

/-- C2: for a non-empty response, `validate_and_correct` returns the safe
fallback — a text built by `generate_fallback` from the engine evaluation
and best move only, never from the LLM text — exactly when the extracted
entities contain at least one Critical-severity error or more than two
High-severity errors; in every other case it returns the corrected original
text `apply_corrections response validations`. -/
theorem validator_fallback_policy (response : List Char)
    (validations : List ValidatedEntity) (stockfish_eval : Evaluation)
    (best_move_san : Option String) (hne : response ≠ []) :
    validate_and_correct response validations stockfish_eval best_move_san =
      if 0 < validations.countP
            (fun v => classify_error_severity v == ErrorSeverity.CRITICAL)
          ∨ 2 < validations.countP
            (fun v => classify_error_severity v == ErrorSeverity.HIGH)
      then (generate_fallback stockfish_eval best_move_san).toList
      else apply_corrections response validations := by
  simp only [validate_and_correct, if_neg hne]
  rw [severity_counts validations 0 0]
  simp only [Nat.zero_add]

/-- C2 witness: with no invalid entities the corrected original text is
returned. -/
theorem validator_fallback_policy_witness :
    validate_and_correct ("Qxf7 wins".toList) [] ⟨"cp", 30⟩ (some "Qxf7") =
      if 0 < List.countP
            (fun v => classify_error_severity v == ErrorSeverity.CRITICAL) []
          ∨ 2 < List.countP
            (fun v => classify_error_severity v == ErrorSeverity.HIGH) []
      then (generate_fallback ⟨"cp", 30⟩ (some "Qxf7")).toList
      else apply_corrections ("Qxf7 wins".toList) [] :=
  validator_fallback_policy ("Qxf7 wins".toList) [] ⟨"cp", 30⟩
    (some "Qxf7") (by decide)

/-- C8: round-trip identity — when every extracted entity validates as
Valid, `validate_and_correct` returns the response text unchanged except
for the whitespace normalization `normWs` (collapse runs, drop whitespace
before punctuation, strip the ends). -/
theorem validator_round_trip (response : List Char)
    (validations : List ValidatedEntity) (stockfish_eval : Evaluation)
    (best_move_san : Option String)
    (hvalid : ∀ v ∈ validations, v.is_valid = true) :
    validate_and_correct response validations stockfish_eval best_move_san =
      normWs response := by
  by_cases hne : response = []
  · subst hne
    rfl
  · have hcrit : validations.countP
        (fun v => classify_error_severity v == ErrorSeverity.CRITICAL) = 0 := by
      rw [List.countP_eq_zero]
      intro v hv
      simp [classify_error_severity_of_valid v (hvalid v hv)]
    have hhigh : validations.countP
        (fun v => classify_error_severity v == ErrorSeverity.HIGH) = 0 := by
      rw [List.countP_eq_zero]
      intro v hv
      simp [classify_error_severity_of_valid v (hvalid v hv)]
    simp only [validate_and_correct, if_neg hne]
    rw [severity_counts validations 0 0]
    simp only [Nat.zero_add]
    rw [hcrit, hhigh]
    rw [if_neg (by decide)]
    simp only [apply_corrections]
    rw [foldl_spliceCorrection_of_all_valid _ response
      (fun v hv => hvalid v (mem_sortByStartDesc v validations hv))]

/-- C8 witness: a concrete response whose only entity is a valid move comes
back whitespace-normalized. -/
theorem validator_round_trip_witness :
    validate_and_correct ("e4  is   strong".toList)
      [⟨"e4", "san_move", true, ValidationResult.VALID, none, 1, (0, 2)⟩]
      ⟨"cp", 30⟩ none =
      normWs ("e4  is   strong".toList) :=
  validator_round_trip ("e4  is   strong".toList)
    [⟨"e4", "san_move", true, ValidationResult.VALID, none, 1, (0, 2)⟩]
    ⟨"cp", 30⟩ none (by decide)

end Chessbot
